import Mathlib

/-
Verification development for the mindl CLI layer (src/cli.go) together
with the handler-resolution, option-negotiation and download-orchestration
contracts that it drives.

Pure string manipulation that lives in cli.go itself (OptionsFlag.Set,
the download-directory normalization at cli.go:126) is embedded directly
from the source.  The PluginManager, the Option Negotiator, the
DownloadManager and the logging package are components of this repository
that are not under src/; they are modelled from the specification, and
every such definition carries a doc comment starting with
"Modelled from the spec:".

A central modelling decision, used throughout: the logging package is not
under src/, and its Fatal entry point is modelled as terminating the run
(log the message, then stop processing), which is both the universal
meaning of a fatal log call and what section 4.1 of the specification
requires ("Fails fatally for the whole run if negotiation fails").
-/

/-- Go strings, modelled as lists of characters. -/
abbrev GoStr := List Char

/-- Locate the first occurrence of the separator character: returns the
text before it and the text after it, or none when the separator does not
occur.  This is the essential content of strings.SplitN(v, sep, 2) for a
one-character separator: SplitN returns a one-element slice (length < 2)
exactly when the separator is absent, and otherwise the part before the
first separator followed by everything after it. -/
def splitFirst (sep : Char) : GoStr → Option (GoStr × GoStr)
  | [] => none
  | c :: cs =>
    if c = sep then some ([], cs)
    else
      match splitFirst sep cs with
      | none => none
      | some (p, s) => some (c :: p, s)

/-- The CLI error values of cli.go:42-44. -/
inductive CliError
  | invalidOptionFormat
deriving DecidableEq

/-- ErrInvalidOptionFormat from cli.go:43. -/
def ErrInvalidOptionFormat : CliError := CliError.invalidOptionFormat

/-- OptionsFlag (cli.go:48): a Go map from string to string, modelled as a
function into Option (a nil or empty map is the everywhere-none function). -/
def OptionsFlag := GoStr → Option GoStr

/-- OptionsFlag.Set (cli.go:68-79): split the argument at the first "=";
with no "=" present (SplitN yields fewer than two parts) fail with
ErrInvalidOptionFormat, otherwise bind the part before the first "=" to
everything after it, keeping all other keys of the map. -/
def OptionsFlag.Set (opt : OptionsFlag) (v : GoStr) : Except CliError OptionsFlag :=
  match splitFirst '=' v with
  | none => Except.error ErrInvalidOptionFormat
  | some (k, val) => Except.ok (fun q => if q = k then some val else opt q)

/-- path/filepath.FromSlash: replace every slash with the OS path
separator (on a platform whose separator is the slash this is the
identity). -/
def fromSlash (sep : Char) (s : GoStr) : GoStr :=
  s.map (fun c => if c = '/' then sep else c)

/-- strings.TrimSuffix: remove one trailing occurrence of the suffix when
the string ends with it, otherwise return the string unchanged. -/
def trimSuffix (s suf : GoStr) : GoStr :=
  if suf.isSuffixOf s then s.take (s.length - suf.length) else s

/-- The download-directory normalization of cli.go:126:
TrimSuffix(FromSlash(s), PathSeparator) + PathSeparator, for an arbitrary
path-separator character. -/
def normDir (sep : Char) (s : GoStr) : GoStr :=
  trimSuffix (fromSlash sep s) [sep] ++ [sep]

/-- Modelled from the spec: DownloadManager.Download is not under src/;
section 4.3 step 2 defines the effective concurrency as requestedWorkers,
unless the Handler declares a hard ceiling and override is false, in which
case the effective concurrency is the ceiling of the Handler (the hidden
override flag of cli.go:110-111 is documented as "forcing the number of
workers"). -/
def effectiveWorkers (requested : Nat) (ceiling : Option Nat) (override : Bool) : Nat :=
  match ceiling, override with
  | some c, false => c
  | _, _ => requested

/-- An option descriptor declared by a handler (spec sections 3 and 6):
key, optional default value, required flag.  The human description plays
no role in negotiation and is omitted. -/
structure OptionDescriptor where
  key : String
  dflt : Option String
  required : Bool

/-- Modelled from the spec: the Option Negotiator (section 4.2) is not
under src/.  For one declared option descriptor, given the operator
override for its key (if any), the useDefaults flag, the declared default,
the required flag, the noPrompt flag and the value an interactive prompt
would produce, it yields the bound value (some v), absence (none), or a
configuration error naming the missing key.  The steps, in order: an
override wins; else under useDefaults a declared default wins; else a
required option errors under noPrompt and otherwise takes the prompted
answer; else the optional option is left absent. -/
def negotiateOption (key : String) (ov : Option String) (useDefaults : Bool)
    (dflt : Option String) (required noPrompt : Bool) (answer : String) :
    Except String (Option String) :=
  match ov with
  | some v => Except.ok (some v)
  | none =>
    match useDefaults, dflt with
    | true, some d => Except.ok (some d)
    | _, _ =>
      if required then
        if noPrompt then Except.error key
        else Except.ok (some answer)
      else Except.ok none

/-- Modelled from the spec: negotiate every declared descriptor of one
handler in order, assembling the configuration bundle; the first failing
descriptor aborts the negotiation with its error. -/
def negotiateAll (ov : String → Option String) (ud np : Bool) (ans : String → String) :
    List OptionDescriptor → Except String (List (String × String))
  | [] => Except.ok []
  | o :: rest =>
    match negotiateOption o.key (ov o.key) ud o.dflt o.required np (ans o.key) with
    | Except.error k => Except.error k
    | Except.ok none => negotiateAll ov ud np ans rest
    | Except.ok (some v) =>
      match negotiateAll ov ud np ans rest with
      | Except.error k => Except.error k
      | Except.ok b => Except.ok ((o.key, v) :: b)

/-- The outcome of one orchestrated download run for one URL, an oracle
for the behavior of DownloadManager.Download (not under src/): a count of
downloads on success, an ordinary error, or an unrecoverable runtime
fault (a panic inside the run). -/
inductive DlOutcome
  | ok (count : Nat)
  | err
  | fault

/-- URL targets are opaque strings in the spec (section 3); identifiers
suffice for the control-flow model. -/
abbrev Url := Nat

/-- Modelled from the spec: a Handler (sections 3 and 6): a name, the
claim predicate over URLs, the declared option descriptors, an optional
concurrency ceiling, and the download outcome it produces per URL (the
oracle standing for its resolve-and-fetch behavior). -/
structure Plugin where
  name : String
  claims : Url → Bool
  declaredOptions : List OptionDescriptor
  ceiling : Option Nat
  dl : Url → DlOutcome

/-- Modelled from the spec: PluginManager.SetOptions (section 4.1) invokes
the Option Negotiator for every Handler of a candidate set; the first
negotiation failure aborts with its configuration error.  The assembled
bundles are bound to the plugins and are not needed by the control-flow
claims, so only success or failure is retained here. -/
def SetOptions (ov : String → Option String) (ud np : Bool) (ans : String → String) :
    List Plugin → Except String Unit
  | [] => Except.ok ()
  | p :: rest =>
    match negotiateAll ov ud np ans p.declaredOptions with
    | Except.error k => Except.error k
    | Except.ok _ => SetOptions ov ud np ans rest

/-- The candidate set of a URL: the registry entries whose claim predicate
accepts it, in registry order (spec section 4.1). -/
def urlHandlers (registry : List Plugin) (u : Url) : List Plugin :=
  registry.filter (fun p => p.claims u)

/-- Modelled from the spec: PluginManager.FindHandlers (section 4.1): the
ordered candidate set for each URL; a pure query. -/
def FindHandlers (registry : List Plugin) (urls : List Url) : List (List Plugin) :=
  urls.map (urlHandlers registry)

/-- Selection errors (spec section 4.1): no handler for the URL, or an
out-of-range interactive choice. -/
inductive SelErr
  | noHandler
  | inputError
deriving DecidableEq

/-- Modelled from the spec: PluginManager.SelectPlugin (section 4.1): an
empty candidate set fails with the no-handler error; a single candidate is
returned without interaction; with several candidates the interactive
index choice selects one, failing with an input error when out of range. -/
def SelectPlugin (candidates : List Plugin) (choice : Nat) : Except SelErr Plugin :=
  match candidates with
  | [] => Except.error SelErr.noHandler
  | [p] => Except.ok p
  | p1 :: p2 :: rest =>
    if hlt : choice < (p1 :: p2 :: rest).length then
      Except.ok ((p1 :: p2 :: rest).get ⟨choice, hlt⟩)
    else Except.error SelErr.inputError

/-- The observable log events of main and startDownloading (cli.go:116-200).
Fatal events terminate the run, per the logging model described at the top
of this file. -/
inductive Event
  | errNoHandler (u : Url)
  | fatalNegotiation (key : String)
  | infoProcessing (u : Url)
  | infoStarting (u : Url) (pluginName : String)
  | fatalSelection (u : Url) (e : SelErr)
  | errDownload (u : Url)
  | infoDone (u : Url) (count : Nat)
  | fatalFault (u : Url)
deriving DecidableEq

/-- The URL an event reports about, when it reports about one. -/
def eventUrl : Event → Option Url
  | Event.errNoHandler u => some u
  | Event.fatalNegotiation _ => none
  | Event.infoProcessing u => some u
  | Event.infoStarting u _ => some u
  | Event.fatalSelection u _ => some u
  | Event.errDownload u => some u
  | Event.infoDone u _ => some u
  | Event.fatalFault u => some u

/-- Events emitted by the option-negotiation loop of main (cli.go:135-144),
as opposed to the selection-and-download loop (cli.go:147-161). -/
def isNegotiationPhase : Event → Bool
  | Event.errNoHandler _ => true
  | Event.fatalNegotiation _ => true
  | _ => false

/-- startDownloading (cli.go:164-200) for one URL and one selected plugin:
a panic inside the run is recovered at the top boundary (cli.go:167-171)
and logged as a fatal event; a download error is logged and the function
returns; success logs the count of downloads.  The Bool records whether a
fatal log terminated the run. -/
def startDownloading (u : Url) (p : Plugin) : List Event × Bool :=
  match p.dl u with
  | DlOutcome.fault => ([Event.fatalFault u], true)
  | DlOutcome.err => ([Event.errDownload u], false)
  | DlOutcome.ok n => ([Event.infoDone u n], false)

/-- The first loop of main (cli.go:135-144): for each URL and its
candidate set, log an error when the set is empty, then set options for
the candidates; a negotiation error is logged fatally and terminates the
run. -/
def optionsLoop (ov : String → Option String) (ud np : Bool) (ans : String → String) :
    List (Url × List Plugin) → List Event × Bool
  | [] => ([], false)
  | (u, h) :: rest =>
    match SetOptions ov ud np ans h with
    | Except.error k =>
      ((if h.isEmpty then [Event.errNoHandler u] else []) ++ [Event.fatalNegotiation k], true)
    | Except.ok _ =>
      ((if h.isEmpty then [Event.errNoHandler u] else []) ++ (optionsLoop ov ud np ans rest).1,
       (optionsLoop ov ud np ans rest).2)

/-- The informational events printed before a download starts
(cli.go:154-158): the URL being processed (only with several URLs) and the
plugin being used. -/
def preEvents (multi : Bool) (u : Url) (p : Plugin) : List Event :=
  (if multi then [Event.infoProcessing u] else []) ++ [Event.infoStarting u p.name]

/-- The second loop of main (cli.go:147-161): select a plugin for each URL
in order; a selection error is logged fatally and terminates the run;
otherwise the download for that URL runs, and a fatal fault inside it
terminates the run as well. -/
def downloadLoop (multi : Bool) (ch : Url → Nat) :
    List (Url × List Plugin) → List Event × Bool
  | [] => ([], false)
  | (u, h) :: rest =>
    match SelectPlugin h (ch u) with
    | Except.error e => ([Event.fatalSelection u e], true)
    | Except.ok p =>
      if (startDownloading u p).2 then
        (preEvents multi u p ++ (startDownloading u p).1, true)
      else
        (preEvents multi u p ++ (startDownloading u p).1 ++ (downloadLoop multi ch rest).1,
         (downloadLoop multi ch rest).2)

/-- main (cli.go:116-162) after flag parsing: resolve candidate sets for
all URLs, run the option-negotiation loop over all of them, and only when
it did not terminate the run, run the selection-and-download loop.  The
Bool records whether a fatal log terminated the run early. -/
def mainRun (registry : List Plugin) (urls : List Url) (ov : String → Option String)
    (ud np : Bool) (ans : String → String) (ch : Url → Nat) : List Event × Bool :=
  if (optionsLoop ov ud np ans (urls.zip (FindHandlers registry urls))).2 then
    optionsLoop ov ud np ans (urls.zip (FindHandlers registry urls))
  else
    ((optionsLoop ov ud np ans (urls.zip (FindHandlers registry urls))).1 ++
       (downloadLoop (decide (1 < urls.length)) ch (urls.zip (FindHandlers registry urls))).1,
     (downloadLoop (decide (1 < urls.length)) ch (urls.zip (FindHandlers registry urls))).2)

/-- Success test for an option-negotiation result. -/
def isOkE (e : Except String Unit) : Bool :=
  match e with
  | Except.ok _ => true
  | Except.error _ => false

/-- The empty options map (a nil Go map). -/
def emptyOptions : OptionsFlag := fun _ => none

/-- No operator-supplied option overrides. -/
def ovNone : String → Option String := fun _ => none

/-- An interactive-prompt oracle answering the empty string. -/
def ansEmpty : String → String := fun _ => ""

/-- An interactive-selection oracle always choosing index 0. -/
def chZero : Url → Nat := fun _ => 0

/-- An interactive-selection oracle always choosing index 5. -/
def chFive : Url → Nat := fun _ => 5

/-- A handler claiming only URL 1, with no options, succeeding with one
download. -/
def pGood : Plugin := ⟨"good", fun w => w == 1, [], none, fun _ => DlOutcome.ok 1⟩

/-- A handler claiming every URL whose run panics on URL 0 and succeeds on
any other URL. -/
def pBoth : Plugin :=
  ⟨"both", fun _ => true, [], none,
   fun w => if w == 0 then DlOutcome.fault else DlOutcome.ok 2⟩

/-- A handler claiming every URL, succeeding with one download. -/
def pA : Plugin := ⟨"a", fun _ => true, [], none, fun _ => DlOutcome.ok 1⟩

/-- A handler claiming only URL 0, succeeding with one download. -/
def pB : Plugin := ⟨"b", fun w => w == 0, [], none, fun _ => DlOutcome.ok 1⟩

/-- A handler claiming every URL and declaring one required option with no
default. -/
def pReq : Plugin :=
  ⟨"req", fun _ => true, [⟨"user", none, true⟩], none, fun _ => DlOutcome.ok 0⟩

/-- The progress ticker interval in milliseconds, from cli.go:176:
time.NewTicker(time.Millisecond * 500). -/
def tickerIntervalMs : Nat := 500

/-- The capacity of the done channel of cli.go:177: a channel made with no
buffer, so a send on it completes only at a rendezvous with a receive. -/
def doneChannelCapacity : Nat := 0

/-- The joint state of one per-URL run and its progress-reporter task
(cli.go:176-194): whether the orchestrator Download call has returned,
whether the deferred send on the done channel has completed, whether the
reporter goroutine has received the stop signal and left its loop, and
whether startDownloading has returned. -/
structure RepState where
  downloaded : Bool
  stopSent : Bool
  stopped : Bool
  returned : Bool
deriving DecidableEq

/-- The initial reporter state: download in progress, reporter ticking. -/
def repInit : RepState := ⟨false, false, false, false⟩

/-- The transitions of the run/reporter pair, following the concurrency
skeleton of cli.go:176-194: the Download call returns; the deferred send
on the unbuffered done channel completes jointly with the receive in the
reporter goroutine (rendezvous semantics of a zero-capacity channel); the
function returns only after its deferred send completed (deferred calls
run before the function returns); and the reporter ticks (samples
ProgressString and renders) as long as it has not received the stop
signal. -/
inductive RepStep : RepState → RepState → Prop
  | finishDownload (s : RepState) : s.downloaded = false →
      RepStep s ⟨true, s.stopSent, s.stopped, s.returned⟩
  | stopHandshake (s : RepState) : s.downloaded = true → s.stopSent = false →
      s.stopped = false → RepStep s ⟨s.downloaded, true, true, s.returned⟩
  | funcReturn (s : RepState) : s.stopSent = true →
      RepStep s ⟨s.downloaded, s.stopSent, s.stopped, true⟩
  | tick (s : RepState) : s.stopped = false → RepStep s s

/-- Reachability of reporter states from the initial state. -/
inductive RepReachable : RepState → Prop
  | init : RepReachable repInit
  | step (s t : RepState) : RepReachable s → RepStep s t → RepReachable t

/-- Claim C5 is refuted here: the spec-modelled effective concurrency with
override=false and a declared ceiling of 20 against 5 requested workers is
20, which exceeds min(requestedWorkers, handlerCeiling) = 5. -/
theorem claim_C5_counterexample :
    effectiveWorkers 5 (some 20) false = 20 ∧
    ¬ effectiveWorkers 5 (some 20) false ≤ min 5 20 := by
  constructor
  · rfl
  · decide

/-- Claim C5 (amended): when override=true, or when the handler declares
no ceiling, the effective concurrency equals requestedWorkers exactly;
when override=false and the handler declares a ceiling c, the effective
concurrency equals c — which is at most min(requestedWorkers, c) exactly
when c is at most requestedWorkers (as in the spec example: ceiling=1,
requested=5 gives 1 with override=false and 5 with override=true). -/
theorem claim_C5 (r c : Nat) (ov : Bool) :
    effectiveWorkers r none ov = r ∧
    effectiveWorkers r (some c) true = r ∧
    effectiveWorkers r (some c) false = c ∧
    (c ≤ r → effectiveWorkers r (some c) false ≤ min r c) ∧
    effectiveWorkers 5 (some 1) false = 1 ∧
    effectiveWorkers 5 (some 1) true = 5 := by
  refine ⟨?_, rfl, rfl, ?_, rfl, rfl⟩
  · cases ov <;> rfl
  · intro h
    simpa [effectiveWorkers] using Nat.le_min.mpr ⟨h, Nat.le_refl c⟩

/-- Witness for claim C5 at the spec example ceiling=1, requested=5. -/
theorem claim_C5_witness :
    effectiveWorkers 5 (some 1) false ≤ min 5 1 :=
  (claim_C5 5 1 false).2.2.2.1 (by decide)

/-- Claim C6: for every declared option key, the value bound by the
negotiator follows the fixed precedence override > default-flag > prompt >
absent: an override always wins; without an override a declared default
wins under useDefaults; without either, a required option takes the
prompted answer (prompting enabled); an optional unset option is left
absent from the bundle. -/
theorem claim_C6 (key v d a : String) (ud np r : Bool) (dflt : Option String) :
    negotiateOption key (some v) ud dflt r np a = Except.ok (some v) ∧
    negotiateOption key none true (some d) r np a = Except.ok (some d) ∧
    negotiateOption key none false dflt true false a = Except.ok (some a) ∧
    negotiateOption key none ud none true false a = Except.ok (some a) ∧
    negotiateOption key none false dflt false np a = Except.ok none ∧
    negotiateOption key none ud none false np a = Except.ok none := by
  refine ⟨rfl, rfl, ?_, ?_, ?_, ?_⟩
  · cases dflt <;> rfl
  · cases ud <;> rfl
  · cases dflt <;> rfl
  · cases ud <;> rfl

/-- The separator does not occur in the string exactly when splitFirst
finds nothing. -/
theorem splitFirst_eq_none_iff (sep : Char) (v : GoStr) :
    splitFirst sep v = none ↔ sep ∉ v := by
  induction v with
  | nil => simp [splitFirst]
  | cons c cs ih =>
    rw [splitFirst]
    by_cases hc : c = sep
    · subst hc
      simp
    · rw [if_neg hc]
      cases h : splitFirst sep cs with
      | none =>
        have hnot : sep ∉ cs := ih.mp h
        simp only [List.mem_cons]
        constructor
        · intro _ hor
          rcases hor with h1 | h2
          · exact hc h1.symm
          · exact hnot h2
        · intro _
          trivial
      | some ps =>
        obtain ⟨p, s⟩ := ps
        have hmem : sep ∈ cs := by
          by_contra hn
          rw [ih.mpr hn] at h
          cases h
        simp [List.mem_cons, hmem]

/-- splitFirst at the first separator occurrence: before it the key, after
it the whole remainder, separators included. -/
theorem splitFirst_append (sep : Char) (p s : GoStr) (hp : sep ∉ p) :
    splitFirst sep (p ++ sep :: s) = some (p, s) := by
  induction p with
  | nil => simp [splitFirst]
  | cons c cs ih =>
    have hc : ¬ c = sep := by
      intro h
      subst h
      exact hp (List.mem_cons_self c cs)
    have ih2 := ih (fun hm => hp (List.mem_cons_of_mem c hm))
    rw [List.cons_append, splitFirst, if_neg hc, ih2]

/-- Claim C9: OptionsFlag.Set(v) fails with ErrInvalidOptionFormat exactly
when v contains no "=" character; otherwise it binds the text before the
first "=" as the key to everything after that first "=" (the value may
itself contain "="), overwriting any earlier binding of that key and
leaving every other key of the map unchanged. -/
theorem claim_C9 (m : OptionsFlag) (v : GoStr) :
    (OptionsFlag.Set m v = Except.error ErrInvalidOptionFormat ↔ ('=' : Char) ∉ v) ∧
    (∀ p s, ('=' : Char) ∉ p → v = p ++ '=' :: s →
      ∃ m2, OptionsFlag.Set m v = Except.ok m2 ∧ m2 p = some s ∧
        ∀ q, q ≠ p → m2 q = m q) := by
  constructor
  · cases h : splitFirst '=' v with
    | none =>
      rw [OptionsFlag.Set, h]
      exact ⟨fun _ => (splitFirst_eq_none_iff '=' v).mp h, fun _ => rfl⟩
    | some ps =>
      obtain ⟨k, val⟩ := ps
      rw [OptionsFlag.Set, h]
      constructor
      · intro hbad
        cases hbad
      · intro hnot
        rw [← splitFirst_eq_none_iff '=' v, h] at hnot
        cases hnot
  · intro p s hp hv
    subst hv
    refine ⟨fun q => if q = p then some s else m q, ?_, ?_, ?_⟩
    · rw [OptionsFlag.Set, splitFirst_append '=' p s hp]
    · simp
    · intro q hq
      simp [hq]

/-- Witness for claim C9: a value without "=" is rejected, and the input
a=b=c binds key a to value b=c, leaving an unrelated key unbound. -/
theorem claim_C9_witness :
    OptionsFlag.Set emptyOptions ['a', 'b'] = Except.error ErrInvalidOptionFormat ∧
    ∃ m2, OptionsFlag.Set emptyOptions ['a', '=', 'b', '=', 'c'] = Except.ok m2 ∧
      m2 ['a'] = some ['b', '=', 'c'] ∧
      ∀ q, q ≠ ['a'] → m2 q = emptyOptions q :=
  ⟨(claim_C9 emptyOptions ['a', 'b']).1.mpr (by decide),
   (claim_C9 emptyOptions ['a', '=', 'b', '=', 'c']).2 ['a'] ['b', '=', 'c']
     (by decide) rfl⟩

/-- Applying the slash replacement twice equals applying it once. -/
theorem fromSlash_fromSlash (sep : Char) (s : GoStr) :
    fromSlash sep (fromSlash sep s) = fromSlash sep s := by
  simp only [fromSlash, List.map_map]
  apply List.map_congr_left
  intro c _
  by_cases h : c = '/' <;> simp [Function.comp, h]

/-- The slash replacement fixes the one-separator string. -/
theorem fromSlash_single (sep : Char) : fromSlash sep [sep] = [sep] := by
  simp [fromSlash]

/-- The slash replacement commutes with take on an already-replaced
string. -/
theorem fromSlash_take (sep : Char) (s : GoStr) (n : Nat) :
    fromSlash sep ((fromSlash sep s).take n) = (fromSlash sep s).take n := by
  calc fromSlash sep ((fromSlash sep s).take n)
      = (fromSlash sep (fromSlash sep s)).take n := by
        simp [fromSlash, List.map_take]
    _ = (fromSlash sep s).take n := by rw [fromSlash_fromSlash]

/-- Removing the single trailing separator just appended gives back the
original string. -/
theorem trimSuffix_concat (t : GoStr) (c : Char) : trimSuffix (t ++ [c]) [c] = t := by
  have hsuf : ([c] : GoStr).isSuffixOf (t ++ [c]) = true := by
    rw [List.isSuffixOf_iff_suffix]
    exact List.suffix_append t [c]
  rw [trimSuffix, if_pos hsuf]
  have hlen : (t ++ [c]).length - ([c] : GoStr).length = t.length := by simp
  rw [hlen]
  exact List.take_left' rfl

/-- The slash replacement fixes the trimmed already-replaced string. -/
theorem fromSlash_trimSuffix (sep : Char) (s : GoStr) :
    fromSlash sep (trimSuffix (fromSlash sep s) [sep]) = trimSuffix (fromSlash sep s) [sep] := by
  rw [trimSuffix]
  split
  · exact fromSlash_take sep s _
  · exact fromSlash_fromSlash sep s

/-- Claim C10: the download-directory normalization of cli.go:126 always
produces a string ending in the path separator, and it is idempotent. -/
theorem claim_C10 (sep : Char) (s : GoStr) :
    (∃ t, normDir sep s = t ++ [sep]) ∧
    normDir sep (normDir sep s) = normDir sep s := by
  constructor
  · exact ⟨trimSuffix (fromSlash sep s) [sep], rfl⟩
  · have h1 : fromSlash sep (normDir sep s) = normDir sep s := by
      rw [normDir]
      rw [show fromSlash sep (trimSuffix (fromSlash sep s) [sep] ++ [sep]) =
            fromSlash sep (trimSuffix (fromSlash sep s) [sep]) ++ fromSlash sep [sep] by
          simp [fromSlash]]
      rw [fromSlash_trimSuffix, fromSlash_single]
    show trimSuffix (fromSlash sep (normDir sep s)) [sep] ++ [sep] = normDir sep s
    rw [h1, normDir, trimSuffix_concat]

/-- Every event of the option-negotiation loop belongs to the negotiation
phase. -/
theorem optionsLoop_phase (ov : String → Option String) (ud np : Bool) (ans : String → String) :
    ∀ pairs : List (Url × List Plugin), ∀ e ∈ (optionsLoop ov ud np ans pairs).1,
      isNegotiationPhase e = true := by
  intro pairs
  induction pairs with
  | nil =>
    intro e he
    simp [optionsLoop] at he
  | cons pr rest ih =>
    obtain ⟨u, h⟩ := pr
    intro e he
    cases hso : SetOptions ov ud np ans h with
    | error k =>
      simp only [optionsLoop, hso, List.mem_append, List.mem_singleton] at he
      rcases he with he | he
      · split at he
        · simp only [List.mem_singleton] at he
          subst he
          rfl
        · simp at he
      · subst he
        rfl
    | ok uu =>
      simp only [optionsLoop, hso, List.mem_append] at he
      rcases he with he | he
      · split at he
        · simp only [List.mem_singleton] at he
          subst he
          rfl
        · simp at he
      · exact ih e he

/-- No event of the selection-and-download loop belongs to the negotiation
phase. -/
theorem downloadLoop_phase (multi : Bool) (ch : Url → Nat) :
    ∀ pairs : List (Url × List Plugin), ∀ e ∈ (downloadLoop multi ch pairs).1,
      isNegotiationPhase e = false := by
  intro pairs
  induction pairs with
  | nil =>
    intro e he
    simp [downloadLoop] at he
  | cons pr rest ih =>
    obtain ⟨u, h⟩ := pr
    intro e he
    cases hsel : SelectPlugin h (ch u) with
    | error se =>
      simp only [downloadLoop, hsel, List.mem_singleton] at he
      subst he
      rfl
    | ok p =>
      have hpre : ∀ x ∈ preEvents multi u p, isNegotiationPhase x = false := by
        intro x hx
        rcases multi with _ | _ <;> simp [preEvents] at hx
        · subst hx
          rfl
        · rcases hx with hx | hx <;> subst hx <;> rfl
      have hsd : ∀ x ∈ (startDownloading u p).1, isNegotiationPhase x = false := by
        intro x hx
        cases hdl : p.dl u <;> simp [startDownloading, hdl] at hx <;> subst hx <;> rfl
      simp only [downloadLoop, hsel] at he
      split at he
      · simp only [List.mem_append] at he
        rcases he with he | he
        · exact hpre e he
        · exact hsd e he
      · simp only [List.mem_append] at he
        rcases he with (he | he) | he
        · exact hpre e he
        · exact hsd e he
        · exact ih e he

/-- When the option-negotiation loop does not terminate the run, option
negotiation succeeded for the candidate set of every URL. -/
theorem optionsLoop_ok (ov : String → Option String) (ud np : Bool) (ans : String → String) :
    ∀ pairs : List (Url × List Plugin), (optionsLoop ov ud np ans pairs).2 = false →
      ∀ pr ∈ pairs, isOkE (SetOptions ov ud np ans pr.2) = true := by
  intro pairs
  induction pairs with
  | nil =>
    intro _ pr hpr
    simp at hpr
  | cons hd rest ih =>
    obtain ⟨u, h⟩ := hd
    intro hab pr hpr
    cases hso : SetOptions ov ud np ans h with
    | error k =>
      simp only [optionsLoop, hso] at hab
      cases hab
    | ok uu =>
      simp only [optionsLoop, hso] at hab
      rcases List.mem_cons.mp hpr with hpr | hpr
      · subst hpr
        simp [isOkE, hso]
      · exact ih hab pr hpr

/-- A failing candidate set anywhere in the list makes the
option-negotiation loop terminate the run. -/
theorem optionsLoop_abort (ov : String → Option String) (ud np : Bool) (ans : String → String) :
    ∀ pairs : List (Url × List Plugin), ∀ pr ∈ pairs,
      isOkE (SetOptions ov ud np ans pr.2) = false →
      (optionsLoop ov ud np ans pairs).2 = true := by
  intro pairs pr hpr hbad
  cases hab : (optionsLoop ov ud np ans pairs).2 with
  | false =>
    have := optionsLoop_ok ov ud np ans pairs hab pr hpr
    rw [this] at hbad
    cases hbad
  | true => rfl

/-- A required descriptor with no override and no declared default fails
the negotiation of its handler under noPrompt, whatever happened to the
descriptors around it. -/
theorem negotiateAll_error (ov : String → Option String) (ud : Bool) (ans : String → String) :
    ∀ opts : List OptionDescriptor, ∀ o ∈ opts,
      o.required = true → ov o.key = none → o.dflt = none →
      ∃ k, negotiateAll ov ud true ans opts = Except.error k := by
  intro opts
  induction opts with
  | nil =>
    intro o ho
    simp at ho
  | cons o1 rest ih =>
    intro o ho hreq hov hd
    rcases List.mem_cons.mp ho with ho | ho
    · subst ho
      have hfail : negotiateOption o.key (ov o.key) ud o.dflt o.required true (ans o.key) =
          Except.error o.key := by
        rw [hov, hreq, hd]
        cases ud <;> rfl
      refine ⟨o.key, ?_⟩
      simp only [negotiateAll, hfail]
    · obtain ⟨k, hk⟩ := ih o ho hreq hov hd
      cases hfirst : negotiateOption o1.key (ov o1.key) ud o1.dflt o1.required true (ans o1.key) with
      | error k1 => exact ⟨k1, by simp only [negotiateAll, hfirst]⟩
      | ok b =>
        cases b with
        | none => exact ⟨k, by simp only [negotiateAll, hfirst, hk]⟩
        | some v => exact ⟨k, by simp only [negotiateAll, hfirst, hk]⟩

/-- A candidate whose negotiation fails makes SetOptions fail for the
whole candidate set. -/
theorem SetOptions_error (ov : String → Option String) (ud np : Bool) (ans : String → String) :
    ∀ cands : List Plugin, ∀ p ∈ cands,
      (∃ k, negotiateAll ov ud np ans p.declaredOptions = Except.error k) →
      ∃ k2, SetOptions ov ud np ans cands = Except.error k2 := by
  intro cands
  induction cands with
  | nil =>
    intro p hp
    simp at hp
  | cons p1 rest ih =>
    intro p hp hbad
    cases hfirst : negotiateAll ov ud np ans p1.declaredOptions with
    | error k1 => exact ⟨k1, by simp only [SetOptions, hfirst]⟩
    | ok b =>
      rcases List.mem_cons.mp hp with hp | hp
      · subst hp
        obtain ⟨k, hk⟩ := hbad
        rw [hfirst] at hk
        cases hk
      · obtain ⟨k2, hk2⟩ := ih p hp hbad
        exact ⟨k2, by simp only [SetOptions, hfirst, hk2]⟩

/-- The pre-download informational events of one URL report about that
URL. -/
theorem preEvents_url (multi : Bool) (w : Url) (p : Plugin) :
    ∀ x ∈ preEvents multi w p, eventUrl x = some w := by
  intro x hx
  cases multi <;> simp [preEvents] at hx
  · subst hx
    rfl
  · rcases hx with hx | hx <;> subst hx <;> rfl

/-- The events of one download run report about its URL. -/
theorem startDownloading_url (w : Url) (p : Plugin) :
    ∀ x ∈ (startDownloading w p).1, eventUrl x = some w := by
  intro x hx
  cases hdl : p.dl w <;> simp [startDownloading, hdl] at hx <;> subst hx <;> rfl

/-- Every event of the selection-and-download loop reports about the URL
of one of its entries. -/
theorem downloadLoop_mention (multi : Bool) (ch : Url → Nat) :
    ∀ pairs : List (Url × List Plugin), ∀ e ∈ (downloadLoop multi ch pairs).1,
      ∃ pr ∈ pairs, eventUrl e = some pr.1 := by
  intro pairs
  induction pairs with
  | nil =>
    intro e he
    simp [downloadLoop] at he
  | cons hd rest ih =>
    obtain ⟨w, h⟩ := hd
    intro e he
    cases hsel : SelectPlugin h (ch w) with
    | error se =>
      simp only [downloadLoop, hsel, List.mem_singleton] at he
      subst he
      exact ⟨(w, h), List.mem_cons_self _ _, rfl⟩
    | ok p =>
      simp only [downloadLoop, hsel] at he
      split at he
      · simp only [List.mem_append] at he
        rcases he with he | he
        · exact ⟨(w, h), List.mem_cons_self _ _, preEvents_url multi w p e he⟩
        · exact ⟨(w, h), List.mem_cons_self _ _, startDownloading_url w p e he⟩
      · simp only [List.mem_append] at he
        rcases he with (he | he) | he
        · exact ⟨(w, h), List.mem_cons_self _ _, preEvents_url multi w p e he⟩
        · exact ⟨(w, h), List.mem_cons_self _ _, startDownloading_url w p e he⟩
        · obtain ⟨pr, hpr, hu⟩ := ih e he
          exact ⟨pr, List.mem_cons_of_mem _ hpr, hu⟩

/-- When every entry of a URL carries the empty candidate set, the
selection-and-download loop never emits a download-start event for it:
that URL's run is skipped. -/
theorem downloadLoop_no_infoStarting (multi : Bool) (ch : Url → Nat) (u : Url) :
    ∀ pairs : List (Url × List Plugin),
      (∀ pr ∈ pairs, pr.1 = u → pr.2 = ([] : List Plugin)) →
      ∀ nm, Event.infoStarting u nm ∉ (downloadLoop multi ch pairs).1 := by
  intro pairs
  induction pairs with
  | nil =>
    intro _ nm hmem
    simp [downloadLoop] at hmem
  | cons hd rest ih =>
    obtain ⟨w, h⟩ := hd
    intro hcond nm hmem
    cases hsel : SelectPlugin h (ch w) with
    | error se =>
      simp only [downloadLoop, hsel, List.mem_singleton] at hmem
      exact Event.noConfusion hmem
    | ok p =>
      have hw : ¬ w = u := by
        intro hwu
        have h0 : h = [] := hcond (w, h) (List.mem_cons_self _ _) hwu
        rw [h0] at hsel
        simp [SelectPlugin] at hsel
      simp only [downloadLoop, hsel] at hmem
      have hfromPre : Event.infoStarting u nm ∈ preEvents multi w p → False := by
        intro hx
        have := preEvents_url multi w p _ hx
        simp [eventUrl] at this
        exact hw this.symm
      have hfromSd : Event.infoStarting u nm ∈ (startDownloading w p).1 → False := by
        intro hx
        have := startDownloading_url w p _ hx
        simp [eventUrl] at this
        exact hw this.symm
      split at hmem
      · simp only [List.mem_append] at hmem
        rcases hmem with hx | hx
        · exact hfromPre hx
        · exact hfromSd hx
      · simp only [List.mem_append] at hmem
        rcases hmem with (hx | hx) | hx
        · exact hfromPre hx
        · exact hfromSd hx
        · exact ih (fun pr hpr => hcond pr (List.mem_cons_of_mem _ hpr)) nm hx

/-- An entry with an empty candidate set makes the selection-and-download
loop terminate the run. -/
theorem downloadLoop_abort_of_empty (multi : Bool) (ch : Url → Nat) (u : Url) :
    ∀ pairs : List (Url × List Plugin), (u, ([] : List Plugin)) ∈ pairs →
      (downloadLoop multi ch pairs).2 = true := by
  intro pairs
  induction pairs with
  | nil =>
    intro hmem
    simp at hmem
  | cons hd rest ih =>
    obtain ⟨w, h⟩ := hd
    intro hmem
    cases hsel : SelectPlugin h (ch w) with
    | error se => simp [downloadLoop, hsel]
    | ok p =>
      rcases List.mem_cons.mp hmem with heq | hmem2
      · injection heq with h1 h2
        rw [← h2] at hsel
        simp [SelectPlugin] at hsel
      · simp only [downloadLoop, hsel]
        split
        · rfl
        · exact ih hmem2

/-- The selection-and-download loop stops at the first entry with an empty
candidate set: entries after it contribute nothing. -/
theorem downloadLoop_cut (multi : Bool) (ch : Url → Nat) (u : Url) :
    ∀ (pre post : List (Url × List Plugin)),
      downloadLoop multi ch (pre ++ (u, ([] : List Plugin)) :: post) =
      downloadLoop multi ch (pre ++ [(u, ([] : List Plugin))]) := by
  intro pre
  induction pre with
  | nil =>
    intro post
    simp [downloadLoop, SelectPlugin]
  | cons hd rest ih =>
    intro post
    obtain ⟨w, h⟩ := hd
    simp only [List.cons_append]
    cases hsel : SelectPlugin h (ch w) with
    | error se => simp [downloadLoop, hsel]
    | ok p =>
      simp only [downloadLoop, hsel]
      split
      · rfl
      · rw [ih post]

/-- Zipping a list with its image under a function pairs every element
with its image. -/
theorem zip_self_map {α β : Type} (f : α → β) :
    ∀ l : List α, l.zip (l.map f) = l.map (fun a => (a, f a))
  | [] => rfl
  | a :: l => by
    simp [zip_self_map f l]

/-- When the option-negotiation loop terminates the run, main never enters
the selection-and-download loop. -/
theorem mainRun_abort (registry : List Plugin) (urls : List Url) (ov : String → Option String)
    (ud np : Bool) (ans : String → String) (ch : Url → Nat)
    (h : (optionsLoop ov ud np ans (urls.zip (FindHandlers registry urls))).2 = true) :
    mainRun registry urls ov ud np ans ch =
      optionsLoop ov ud np ans (urls.zip (FindHandlers registry urls)) := by
  unfold mainRun
  rw [if_pos h]

/-- When the option-negotiation loop does not terminate the run, main runs
the selection-and-download loop after it. -/
theorem mainRun_go (registry : List Plugin) (urls : List Url) (ov : String → Option String)
    (ud np : Bool) (ans : String → String) (ch : Url → Nat)
    (h : (optionsLoop ov ud np ans (urls.zip (FindHandlers registry urls))).2 = false) :
    mainRun registry urls ov ud np ans ch =
      ((optionsLoop ov ud np ans (urls.zip (FindHandlers registry urls))).1 ++
        (downloadLoop (decide (1 < urls.length)) ch (urls.zip (FindHandlers registry urls))).1,
       (downloadLoop (decide (1 < urls.length)) ch (urls.zip (FindHandlers registry urls))).2) := by
  unfold mainRun
  rw [if_neg (by simp [h])]

/-- When the option-negotiation loop runs to completion, it has logged a
no-handler error for every URL whose candidate set is empty. -/
theorem optionsLoop_mem_err (ov : String → Option String) (ud np : Bool) (ans : String → String) :
    ∀ pairs : List (Url × List Plugin), (optionsLoop ov ud np ans pairs).2 = false →
      ∀ u, (u, ([] : List Plugin)) ∈ pairs →
      Event.errNoHandler u ∈ (optionsLoop ov ud np ans pairs).1 := by
  intro pairs
  induction pairs with
  | nil =>
    intro _ u hmem
    simp at hmem
  | cons hd rest ih =>
    obtain ⟨w, h⟩ := hd
    intro hab u hmem
    cases hso : SetOptions ov ud np ans h with
    | error k =>
      simp only [optionsLoop, hso] at hab
      cases hab
    | ok uu =>
      simp only [optionsLoop, hso] at hab ⊢
      rcases List.mem_cons.mp hmem with heq | hmem2
      · injection heq with h1 h2
        subst h1
        rw [← h2]
        simp
      · exact List.mem_append_right _ (ih hab u hmem2)

/-- Claim C4: option negotiation runs over the candidate sets of all URLs
and completes before any plugin selection or download starts (the trace
splits into a negotiation-phase part followed by a download-phase part);
any download-phase event implies negotiation succeeded for every URL's
candidate set; and a negotiation failure for any candidate set terminates
the whole run with a trace that contains no download-phase event at
all. -/
theorem claim_C4 (registry : List Plugin) (urls : List Url) (ov : String → Option String)
    (ud np : Bool) (ans : String → String) (ch : Url → Nat) :
    (∃ es1 es2, (mainRun registry urls ov ud np ans ch).1 = es1 ++ es2 ∧
      (∀ e ∈ es1, isNegotiationPhase e = true) ∧
      (∀ e ∈ es2, isNegotiationPhase e = false)) ∧
    ((∃ e ∈ (mainRun registry urls ov ud np ans ch).1, isNegotiationPhase e = false) →
      ∀ pr ∈ urls.zip (FindHandlers registry urls),
        isOkE (SetOptions ov ud np ans pr.2) = true) ∧
    ((∃ pr ∈ urls.zip (FindHandlers registry urls),
        isOkE (SetOptions ov ud np ans pr.2) = false) →
      (mainRun registry urls ov ud np ans ch).2 = true ∧
      ∀ e ∈ (mainRun registry urls ov ud np ans ch).1, isNegotiationPhase e = true) := by
  cases hab : (optionsLoop ov ud np ans (urls.zip (FindHandlers registry urls))).2 with
  | true =>
    have hm := mainRun_abort registry urls ov ud np ans ch hab
    refine ⟨⟨(optionsLoop ov ud np ans (urls.zip (FindHandlers registry urls))).1, [],
      ?_, ?_, ?_⟩, ?_, ?_⟩
    · rw [hm, List.append_nil]
    · exact optionsLoop_phase ov ud np ans _
    · intro e he
      simp at he
    · rintro ⟨e, he, hphase⟩
      rw [hm] at he
      have hph := optionsLoop_phase ov ud np ans _ e he
      rw [hph] at hphase
      cases hphase
    · intro _
      refine ⟨?_, ?_⟩
      · rw [hm]
        exact hab
      · rw [hm]
        exact optionsLoop_phase ov ud np ans _
  | false =>
    have hm := mainRun_go registry urls ov ud np ans ch hab
    refine ⟨⟨(optionsLoop ov ud np ans (urls.zip (FindHandlers registry urls))).1,
      (downloadLoop (decide (1 < urls.length)) ch (urls.zip (FindHandlers registry urls))).1,
      ?_, ?_, ?_⟩, ?_, ?_⟩
    · rw [hm]
    · exact optionsLoop_phase ov ud np ans _
    · exact downloadLoop_phase _ ch _
    · intro _
      exact optionsLoop_ok ov ud np ans _ hab
    · rintro ⟨pr, hpr, hbad⟩
      have habort := optionsLoop_abort ov ud np ans _ pr hpr hbad
      rw [habort] at hab
      cases hab

/-- Witness for claim C4: one URL whose only candidate declares a required
option with no default, under noPrompt: the run terminates in the
negotiation phase. -/
theorem claim_C4_witness :
    (mainRun [pReq] [0] ovNone false true ansEmpty chZero).2 = true := by
  have h := (claim_C4 [pReq] [0] ovNone false true ansEmpty chZero).2.2
  exact (h ⟨(0, [pReq]), List.mem_singleton.mpr rfl, rfl⟩).1

/-- Claim C7: a required option with no override and no usable default
fails negotiation deterministically under noPrompt with a configuration
error naming that key (shown at the negotiator for both ways a usable
default can be missing), the candidate set of any handler declaring such
an option fails SetOptions, and the whole run then terminates during the
negotiation phase, before any download event is emitted. -/
theorem claim_C7 (registry : List Plugin) (urls : List Url) (ov : String → Option String)
    (ud : Bool) (ans : String → String) (ch : Url → Nat) (key : String) (dflt : Option String)
    (a : String) (u : Url) (h : List Plugin) (p : Plugin) (o : OptionDescriptor)
    (hmem : (u, h) ∈ urls.zip (FindHandlers registry urls)) (hp : p ∈ h)
    (ho : o ∈ p.declaredOptions) (hreq : o.required = true) (hov : ov o.key = none)
    (hd : o.dflt = none) :
    negotiateOption key none ud none true true a = Except.error key ∧
    negotiateOption key none false dflt true true a = Except.error key ∧
    (∃ k, SetOptions ov ud true ans h = Except.error k) ∧
    (mainRun registry urls ov ud true ans ch).2 = true ∧
    (∀ e ∈ (mainRun registry urls ov ud true ans ch).1, isNegotiationPhase e = true) := by
  have hna := negotiateAll_error ov ud ans p.declaredOptions o ho hreq hov hd
  have hso := SetOptions_error ov ud true ans h p hp hna
  have hbad : isOkE (SetOptions ov ud true ans h) = false := by
    obtain ⟨k, hk⟩ := hso
    rw [hk]
    rfl
  have hab := optionsLoop_abort ov ud true ans _ (u, h) hmem hbad
  have hm := mainRun_abort registry urls ov ud true ans ch hab
  refine ⟨?_, ?_, hso, ?_, ?_⟩
  · cases ud <;> rfl
  · cases dflt <;> rfl
  · rw [hm]
    exact hab
  · rw [hm]
    exact optionsLoop_phase ov ud true ans _

/-- Witness for claim C7: the concrete handler pReq with required key
"user", no override, no default, under noPrompt: the run terminates in the
negotiation phase. -/
theorem claim_C7_witness :
    (mainRun [pReq] [7] ovNone false true ansEmpty chZero).2 = true := by
  have h := claim_C7 [pReq] [7] ovNone false ansEmpty chZero "user" none ""
    7 [pReq] pReq ⟨"user", none, true⟩
    (List.mem_singleton.mpr rfl) (List.mem_singleton.mpr rfl)
    (List.mem_singleton.mpr rfl) rfl rfl rfl
  exact h.2.2.2.1

/-- Claim C1 is refuted here: with URL 0 unhandled and URL 1 handled by
pGood, the whole trace of the invocation is the no-handler error for URL 0
followed by the fatal no-handler selection error for URL 0, and the run
terminated: no event of the run for URL 1 exists, although pGood would
have completed it, so the sibling URL did not still proceed and the
process did abort. -/
theorem claim_C1_counterexample :
    mainRun [pGood] [0, 1] ovNone false false ansEmpty chZero =
      ([Event.errNoHandler 0, Event.fatalSelection 0 SelErr.noHandler], true) := by
  rfl

/-- Claim C1 (amended): if no handler claims one of the URLs, resolution
yields the empty candidate set for it, a no-handler error is logged during
the negotiation loop, and that URL's download run is skipped (no
download-start event for it is ever emitted); but when the pipeline
reaches that URL in the selection loop the fatal no-handler selection
error terminates the process, so the runs of URLs after it never execute
(only URLs before it can have run). -/
theorem claim_C1 (registry : List Plugin) (pre post : List Url) (u : Url)
    (ov : String → Option String) (ud np : Bool) (ans : String → String) (ch : Url → Nat)
    (hempty : urlHandlers registry u = [])
    (hnoab : (optionsLoop ov ud np ans
      ((pre ++ u :: post).zip (FindHandlers registry (pre ++ u :: post)))).2 = false) :
    Event.errNoHandler u ∈ (mainRun registry (pre ++ u :: post) ov ud np ans ch).1 ∧
    (∀ nm, Event.infoStarting u nm ∉ (mainRun registry (pre ++ u :: post) ov ud np ans ch).1) ∧
    (mainRun registry (pre ++ u :: post) ov ud np ans ch).2 = true ∧
    (∀ w, w ∉ pre → ¬ w = u →
      ∀ nm, Event.infoStarting w nm ∉ (mainRun registry (pre ++ u :: post) ov ud np ans ch).1) := by
  have hm := mainRun_go registry (pre ++ u :: post) ov ud np ans ch hnoab
  have hpairs : (pre ++ u :: post).zip (FindHandlers registry (pre ++ u :: post)) =
      (pre ++ u :: post).map (fun w => (w, urlHandlers registry w)) := by
    rw [FindHandlers]
    exact zip_self_map _ _
  have humem : (u, ([] : List Plugin)) ∈
      (pre ++ u :: post).zip (FindHandlers registry (pre ++ u :: post)) := by
    rw [hpairs]
    refine List.mem_map.mpr ⟨u, List.mem_append_right pre (List.mem_cons_self u post), ?_⟩
    rw [hempty]
  refine ⟨?_, ?_, ?_, ?_⟩
  · rw [hm]
    exact List.mem_append_left _ (optionsLoop_mem_err ov ud np ans _ hnoab u humem)
  · intro nm hmem
    rw [hm] at hmem
    rcases List.mem_append.mp hmem with hx | hx
    · have hph := optionsLoop_phase ov ud np ans _ _ hx
      simp [isNegotiationPhase] at hph
    · have hcond : ∀ pr ∈ (pre ++ u :: post).zip (FindHandlers registry (pre ++ u :: post)),
          pr.1 = u → pr.2 = ([] : List Plugin) := by
        intro pr hpr hpru
        rw [hpairs] at hpr
        obtain ⟨w, hw, hweq⟩ := List.mem_map.mp hpr
        rw [← hweq] at hpru ⊢
        dsimp at hpru ⊢
        rw [hpru]
        exact hempty
      exact downloadLoop_no_infoStarting _ ch u _ hcond nm hx
  · rw [hm]
    exact downloadLoop_abort_of_empty _ ch u _ humem
  · intro w hwpre hwu nm hmem
    rw [hm] at hmem
    rcases List.mem_append.mp hmem with hx | hx
    · have hph := optionsLoop_phase ov ud np ans _ _ hx
      simp [isNegotiationPhase] at hph
    · have hsplit : (pre ++ u :: post).zip (FindHandlers registry (pre ++ u :: post)) =
          pre.map (fun w2 => (w2, urlHandlers registry w2)) ++
            (u, ([] : List Plugin)) ::
              post.map (fun w2 => (w2, urlHandlers registry w2)) := by
        rw [hpairs, List.map_append, List.map_cons, hempty]
      rw [hsplit, downloadLoop_cut] at hx
      obtain ⟨pr, hpr, hu⟩ := downloadLoop_mention _ ch _ _ hx
      simp only [eventUrl] at hu
      have hwpr : w = pr.1 := Option.some.inj hu
      rcases List.mem_append.mp hpr with hpr1 | hpr2
      · obtain ⟨w2, hw2, hw2eq⟩ := List.mem_map.mp hpr1
        rw [← hw2eq] at hwpr
        dsimp at hwpr
        exact hwpre (by rw [hwpr]; exact hw2)
      · have hpru : pr = (u, ([] : List Plugin)) := List.mem_singleton.mp hpr2
        rw [hpru] at hwpr
        exact hwu hwpr

/-- Witness for claim C1 at the counterexample configuration: the
no-handler error for URL 0 is in the trace and the run terminated. -/
theorem claim_C1_witness :
    Event.errNoHandler 0 ∈ (mainRun [pGood] [0, 1] ovNone false false ansEmpty chZero).1 ∧
    (mainRun [pGood] [0, 1] ovNone false false ansEmpty chZero).2 = true := by
  have h := claim_C1 [pGood] [] [1] 0 ovNone false false ansEmpty chZero rfl rfl
  exact ⟨h.1, h.2.2.1⟩

/-- Claim C2 is refuted here: with both URLs claimed by pBoth, whose run
panics on URL 0, the whole trace of the invocation ends at the fatal
panic event for URL 0 and the run terminated: no event of the run for
URL 1 exists, although pBoth would have completed it, so the remaining URL
was not processed afterwards. -/
theorem claim_C2_counterexample :
    mainRun [pBoth] [0, 1] ovNone false false ansEmpty chZero =
      ([Event.infoProcessing 0, Event.infoStarting 0 "both", Event.fatalFault 0], true) := by
  rfl

/-- Claim C2 (amended): an unrecoverable runtime fault (panic) inside a
per-URL download run is caught at the top boundary of that run and logged
as a fatal error for that URL; but the fatal log terminates the process,
so in a multi-URL invocation the remaining URLs are not processed
afterwards (the loop emits nothing for the entries after the faulting
URL). -/
theorem claim_C2 (multi : Bool) (ch : Url → Nat) (u : Url) (h : List Plugin)
    (rest : List (Url × List Plugin)) (p : Plugin)
    (hsel : SelectPlugin h (ch u) = Except.ok p) (hdl : p.dl u = DlOutcome.fault) :
    startDownloading u p = ([Event.fatalFault u], true) ∧
    downloadLoop multi ch ((u, h) :: rest) =
      (preEvents multi u p ++ [Event.fatalFault u], true) := by
  have hsd : startDownloading u p = ([Event.fatalFault u], true) := by
    simp only [startDownloading, hdl]
  refine ⟨hsd, ?_⟩
  simp only [downloadLoop, hsel, hsd]
  simp

/-- Witness for claim C2 at the counterexample configuration: the loop
for the two URLs stops at the fatal panic event of the first. -/
theorem claim_C2_witness :
    downloadLoop true chZero [(0, [pBoth]), (1, [pBoth])] =
      (preEvents true 0 pBoth ++ [Event.fatalFault 0], true) :=
  (claim_C2 true chZero 0 [pBoth] [(1, [pBoth])] pBoth rfl rfl).2

/-- Claim C3 is refuted here: with URL 0 claimed by both pA and pB and an
out-of-range interactive choice (index 5), the whole trace of the
invocation is the single fatal input-error selection event for URL 0 and
the run terminated: no event of the run for URL 1 exists, although pA
claims it and would have completed it, so the sibling URL's run did not
still execute. -/
theorem claim_C3_counterexample :
    mainRun [pA, pB] [0, 1] ovNone false false ansEmpty chFive =
      ([Event.fatalSelection 0 SelErr.inputError], true) := by
  rfl

/-- Claim C3 (amended): a selection failure for one URL — the no-handler
error, which occurs exactly when the candidate set is empty, or the input
error produced by an out-of-range index choice over several candidates —
is logged fatally at that URL and terminates the process: the loop emits
only that fatal event and nothing for any entry after it, so sibling URLs
after the failing one do not execute (sibling URLs before it have already
run). -/
theorem claim_C3 (multi : Bool) (ch : Url → Nat) (u : Url) (h : List Plugin)
    (rest : List (Url × List Plugin)) (e : SelErr) (c : Nat)
    (hsel : SelectPlugin h (ch u) = Except.error e) :
    downloadLoop multi ch ((u, h) :: rest) = ([Event.fatalSelection u e], true) ∧
    (SelectPlugin h c = Except.error SelErr.noHandler ↔ h = []) ∧
    (2 ≤ h.length → h.length ≤ c → SelectPlugin h c = Except.error SelErr.inputError) := by
  refine ⟨by simp [downloadLoop, hsel], ?_, ?_⟩
  · cases h with
    | nil => simp [SelectPlugin]
    | cons p1 t =>
      cases t with
      | nil => simp [SelectPlugin]
      | cons p2 t2 =>
        constructor
        · intro hx
          simp only [SelectPlugin] at hx
          split at hx <;> simp at hx
        · intro hx
          simp at hx
  · intro hlen hc
    cases h with
    | nil => simp at hlen
    | cons p1 t =>
      cases t with
      | nil =>
        simp at hlen
      | cons p2 t2 =>
        have hnot : ¬ c < (p1 :: p2 :: t2).length := by omega
        simp only [SelectPlugin, dif_neg hnot]

/-- Witness for claim C3 at the counterexample configuration: the loop for
the two URLs stops at the fatal input-error event of the first. -/
theorem claim_C3_witness :
    downloadLoop true chFive [(0, [pA, pB]), (1, [pA])] =
      ([Event.fatalSelection 0 SelErr.inputError], true) :=
  (claim_C3 true chFive 0 [pA, pB] [(1, [pA])] SelErr.inputError 0 rfl).1

/-- Invariant of the run/reporter transition system: the send on the
unbuffered done channel completes exactly together with the reporter
receiving the stop signal, and the function can only have returned after
the send completed. -/
theorem repInvariant : ∀ s : RepState, RepReachable s →
    s.stopSent = s.stopped ∧ (s.returned = true → s.stopSent = true) := by
  intro s hs
  induction hs with
  | init => exact ⟨rfl, fun h => by cases h⟩
  | step s1 t h1 hstep ih =>
    cases hstep with
    | finishDownload hd => exact ⟨ih.1, ih.2⟩
    | stopHandshake hd hsent hstop => exact ⟨rfl, fun _ => rfl⟩
    | funcReturn hsent => exact ⟨ih.1, fun _ => hsent⟩
    | tick hstop => exact ih

/-- Claim C8: the progress reporter samples ProgressString on a fixed
500ms tick from a dedicated timer task; the stop signal travels over a
zero-capacity (unbuffered, hence synchronous) channel; and in every
reachable state of the run/reporter transition system in which the
per-URL run has returned, the timer task has already received the stop
signal, so the final render cannot race the run's exit. -/
theorem claim_C8 :
    tickerIntervalMs = 500 ∧ doneChannelCapacity = 0 ∧
    ∀ s : RepState, RepReachable s → s.returned = true → s.stopped = true := by
  refine ⟨rfl, rfl, ?_⟩
  intro s hs hret
  have h := repInvariant s hs
  rw [← h.1]
  exact h.2 hret

/-- Witness for claim C8: the fully terminated state is reachable by the
download finishing, the stop handshake, and the function returning, and
in it the reporter is stopped. -/
theorem claim_C8_witness :
    RepReachable ⟨true, true, true, true⟩ ∧
    (⟨true, true, true, true⟩ : RepState).stopped = true := by
  have h1 : RepReachable ⟨true, false, false, false⟩ :=
    RepReachable.step _ _ RepReachable.init (RepStep.finishDownload repInit rfl)
  have h2 : RepReachable ⟨true, true, true, false⟩ :=
    RepReachable.step _ _ h1 (RepStep.stopHandshake _ rfl rfl rfl)
  have h3 : RepReachable ⟨true, true, true, true⟩ :=
    RepReachable.step _ _ h2 (RepStep.funcReturn _ rfl)
  exact ⟨h3, claim_C8.2.2 _ h3 rfl⟩
